import Mathlib

/-!
# A shallow embedding of py-caskdb (`format.py`, `disk_store.py`)

Python byte strings are modelled as `List Nat` (each entry a byte value),
Python text strings (`str`) as `List Nat` of Unicode code points.
Python exceptions are modelled by the error type `PyErr`; fallible
operations return `Except PyErr _`.

`constants.HEADER_SIZE` is not among the given sources; the spec fixes the
header at 12 bytes, which is also forced by `struct.pack("III", ...)`
producing three 4-byte integers.
-/

namespace CaskDB

/-- A Python text string: its list of Unicode code points. -/
abbrev PyStr := List Nat

/-- A Python bytes object: its list of byte values. -/
abbrev Bytes := List Nat

/-- The Python exceptions the embedded code can raise:
`struct.error` (from `struct.pack`/`struct.unpack`),
`UnicodeDecodeError` (from `bytes.decode()`),
`UnicodeEncodeError` (from `str.encode()` on a lone surrogate), and
`ValueError` (I/O operation on a closed file). -/
inductive PyErr where
  | structError
  | unicodeDecodeError
  | unicodeEncodeError
  | valueError
deriving DecidableEq, Repr

/-- `constants.HEADER_SIZE`: the size of the record header,
12 bytes = three packed unsigned 32-bit integers. -/
def HEADER_SIZE : Nat := 12

/-- The four bytes of an unsigned 32-bit integer, least significant first
(one fixed byte order for `struct.pack("I", n)`). -/
def le4 (n : Nat) : Bytes :=
  [n % 256, n / 256 % 256, n / 65536 % 256, n / 16777216 % 256]

/-- Read back an unsigned 32-bit integer from four little-endian bytes. -/
def fromLE4 (b : Bytes) : Nat :=
  match b with
  | [b0, b1, b2, b3] => b0 + 256 * b1 + 65536 * b2 + 16777216 * b3
  | _ => 0

/-- The UTF-8 byte layout of one encodable Unicode code point. Only applied
through the guard in `encodeStr`, which rejects the code points CPython's
strict codec refuses to encode. -/
def utf8EncodeChar (c : Nat) : Bytes :=
  if c < 0x80 then [c]
  else if c < 0x800 then [0xC0 + c / 64, 0x80 + c % 64]
  else if c < 0x10000 then
    [0xE0 + c / 4096, 0x80 + c / 64 % 64, 0x80 + c % 64]
  else
    [0xF0 + c / 262144, 0x80 + c / 4096 % 64, 0x80 + c / 64 % 64, 0x80 + c % 64]

/-- Whether CPython's strict UTF-8 codec accepts a code point: at most
`U+10FFFF` (larger values cannot occur in a `str` at all) and not a lone
surrogate `U+D800`–`U+DFFF` (which `str.encode()` rejects with
`UnicodeEncodeError`). -/
def encodableChar (c : Nat) : Bool :=
  c < 0xD800 || (0xE000 ≤ c && c < 0x110000)

/-- The UTF-8 bytes of a string all of whose code points are encodable. -/
def utf8EncodeAll (s : PyStr) : Bytes :=
  (s.map utf8EncodeChar).flatten

/-- `s.encode()`: the UTF-8 bytes of a Python string, or `none` when some
code point is a lone surrogate, where CPython raises `UnicodeEncodeError`. -/
def encodeStr (s : PyStr) : Option Bytes :=
  if s.all encodableChar then some (utf8EncodeAll s) else none

/-- Whether a byte is a UTF-8 continuation byte (`0x80..0xBF`). -/
def isCont (b : Nat) : Bool :=
  0x80 ≤ b && b < 0xC0

/-- Strict UTF-8 decoding of a single character from a first byte `b` and
the following bytes: the decoded code point and the bytes left over.
Rejects truncated sequences, stray continuation bytes, overlong forms,
surrogates and values beyond `U+10FFFF`, as Python's strict codec does. -/
def utf8DecodeOne (b : Nat) (rest : Bytes) : Option (Nat × Bytes) :=
  if b < 0x80 then some (b, rest)
  else if b < 0xC2 then none
  else if b < 0xE0 then
    match rest with
    | b1 :: rest2 =>
      if isCont b1 then some ((b - 0xC0) * 64 + (b1 - 0x80), rest2) else none
    | [] => none
  else if b < 0xF0 then
    match rest with
    | b1 :: b2 :: rest3 =>
      if isCont b1 && isCont b2
          && !(b == 0xE0 && b1 < 0xA0) && !(b == 0xED && 0xA0 ≤ b1) then
        some ((b - 0xE0) * 4096 + (b1 - 0x80) * 64 + (b2 - 0x80), rest3)
      else none
    | _ => none
  else if b < 0xF5 then
    match rest with
    | b1 :: b2 :: b3 :: rest4 =>
      if isCont b1 && isCont b2 && isCont b3
          && !(b == 0xF0 && b1 < 0x90) && !(b == 0xF4 && 0x90 ≤ b1) then
        some ((b - 0xF0) * 262144 + (b1 - 0x80) * 4096
          + (b2 - 0x80) * 64 + (b3 - 0x80), rest4)
      else none
    | _ => none
  else none

/-- Character-by-character strict UTF-8 decoding. `fuel` bounds the number
of characters decoded; each character consumes at least one byte, so any
`fuel ≥` the byte count is enough and the `0`-with-bytes-left branch is
never reached from `utf8Decode`. -/
def utf8DecodeLoop : Nat → Bytes → Option PyStr
  | _, [] => some []
  | 0, _ :: _ => none
  | fuel + 1, b :: rest =>
    match utf8DecodeOne b rest with
    | none => none
    | some cr => (utf8DecodeLoop fuel cr.2).map (cr.1 :: ·)

/-- `bytes.decode()`: strict UTF-8 decoding of a whole byte string. -/
def utf8Decode (bs : Bytes) : Option PyStr :=
  utf8DecodeLoop bs.length bs

/-- `struct.pack("{n}s", b)`: truncate or zero-pad `b` to exactly `n` bytes. -/
def packTo (n : Nat) (b : Bytes) : Bytes :=
  b.take n ++ List.replicate (n - b.length) 0

/-- `format.encode_header`: `struct.pack("III", timestamp, key_size,
value_size)`; `struct.error` when an argument does not fit 32 bits. -/
def encode_header (timestamp key_size value_size : Nat) : Except PyErr Bytes :=
  if timestamp < 2 ^ 32 ∧ key_size < 2 ^ 32 ∧ value_size < 2 ^ 32 then
    .ok (le4 timestamp ++ le4 key_size ++ le4 value_size)
  else .error .structError

/-- `format.encode_kv`: evaluates `key.encode()` and `value.encode()`
(raising `UnicodeEncodeError` on a lone surrogate before anything is
packed), packs the encodings into `len(key)` resp. `len(value)` bytes
(character counts, via `struct.pack("{}s{}s".format(len(key), len(value)),
...)`), prepends the header, and returns `(total_length, bytes)`. -/
def encode_kv (timestamp : Nat) (key value : PyStr) :
    Except PyErr (Nat × Bytes) :=
  match encodeStr key, encodeStr value with
  | some key_b, some value_b =>
    let record_in_bin := packTo key.length key_b ++ packTo value.length value_b
    match encode_header timestamp key.length value.length with
    | .error e => .error e
    | .ok header =>
      let record_with_header := header ++ record_in_bin
      .ok (record_with_header.length, record_with_header)
  | _, _ => .error .unicodeEncodeError

/-- `format.decode_header`: `struct.unpack("III", data)`; `struct.error`
unless `data` is exactly 12 bytes. -/
def decode_header (data : Bytes) : Except PyErr (Nat × Nat × Nat) :=
  if data.length = HEADER_SIZE then
    .ok (fromLE4 (data.take 4), fromLE4 ((data.drop 4).take 4),
         fromLE4 ((data.drop 8).take 4))
  else .error .structError

/-- `format.decode_kv`: decodes the header from `data[:HEADER_SIZE]`, then
`struct.unpack("{k}s{v}s", data[HEADER_SIZE:])` (which needs exactly
`key_size + value_size` bytes), then `key.decode()` and `value.decode()`. -/
def decode_kv (data : Bytes) : Except PyErr (Nat × PyStr × PyStr) :=
  match decode_header (data.take HEADER_SIZE) with
  | .error e => .error e
  | .ok (timestamp, key_size, value_size) =>
    let body := data.drop HEADER_SIZE
    if body.length = key_size + value_size then
      match utf8Decode (body.take key_size), utf8Decode (body.drop key_size) with
      | some key, some value => .ok (timestamp, key, value)
      | _, _ => .error .unicodeDecodeError
    else .error .structError

/-! ## `disk_store.py` -/

/-- A Python `dict[str, int]`: an association list with unique keys,
`d[k] = v` replacing in place or appending. -/
abbrev Dict := List (PyStr × Nat)

/-- `d.get(k)`: lookup, `none` when absent. -/
def dictGet (d : Dict) (k : PyStr) : Option Nat :=
  match d with
  | [] => none
  | (k', v) :: rest => if k' = k then some v else dictGet rest k

/-- `d[k] = v`: replace the existing entry for `k` or append a new one. -/
def dictSet (d : Dict) (k : PyStr) (v : Nat) : Dict :=
  match d with
  | [] => [(k, v)]
  | (k', v') :: rest =>
    if k' = k then (k', v) :: rest else (k', v') :: dictSet rest k v

/-- The state of a `DiskStorage` object: the log file's bytes, the file
handle's read/write position, the in-memory `key_dir`, and whether the
handle is open (`file.close()` flips it; operations needing the handle
raise `ValueError` afterwards). -/
structure DiskStorage where
  file : Bytes
  pos : Nat
  key_dir : Dict
  isOpen : Bool
deriving DecidableEq, Repr

/-- `file.read(n)` after `file.seek(off)`: up to `n` bytes from `off`. -/
def readAt (file : Bytes) (off n : Nat) : Bytes :=
  (file.drop off).take n

/-- `DiskStorage.set`: seeks to end of file, records the offset, encodes the
record with the given wall-clock `timestamp` (`int(time.time())`, passed
here as a parameter), appends it, and points `key_dir[key]` at the offset.
Raises `ValueError` when the handle is closed. -/
def DiskStorage.set (st : DiskStorage) (key value : PyStr) (timestamp : Nat) :
    Except PyErr DiskStorage :=
  if st.isOpen then
    let total_file_size_before_key_set := st.file.length
    match encode_kv timestamp key value with
    | .ok (_, encoded) =>
      .ok { file := st.file ++ encoded
            pos := st.file.length + encoded.length
            key_dir := dictSet st.key_dir key total_file_size_before_key_set
            isOpen := true }
    | .error e => .error e
  else .error .valueError

/-- `DiskStorage.get`: looks `key` up in `key_dir` first — when absent it
returns `""` (the empty string) before touching the file, even on a closed
handle. Otherwise it seeks to the offset, reads and decodes the header,
reads the body, and decodes the record, returning its value. The returned
`DiskStorage` is the object's state after the call (only `pos` can move). -/
def DiskStorage.get (st : DiskStorage) (key : PyStr) :
    Except PyErr PyStr × DiskStorage :=
  match dictGet st.key_dir key with
  | none => (.ok [], st)
  | some offset_to_jump_to =>
    if st.isOpen then
      let header_b := readAt st.file offset_to_jump_to HEADER_SIZE
      match decode_header header_b with
      | .error e => (.error e, { st with pos := offset_to_jump_to + header_b.length })
      | .ok (_, key_size, value_size) =>
        let kv_data_b := readAt st.file (offset_to_jump_to + HEADER_SIZE)
          (key_size + value_size)
        let st' := { st with
          pos := offset_to_jump_to + HEADER_SIZE + kv_data_b.length }
        match decode_kv (header_b ++ kv_data_b) with
        | .error e => (.error e, st')
        | .ok (_, _, v) => (.ok v, st')
    else (.error .valueError, st)

/-- `DiskStorage.close`: `self.file_store.close()`. Closing is idempotent in
Python — a second `close` succeeds as a no-op. -/
def DiskStorage.close (st : DiskStorage) : Except PyErr DiskStorage :=
  .ok { st with isOpen := false }

/-- The `while` loop of `DiskStorage.__init_db`: from `cur`, read 12 header
bytes, decode them, read the declared `key_size + value_size` body bytes,
decode the full record, set `key_dir[key] = cur`, and advance by
`12 + key_size + value_size`. `fuel` bounds the number of iterations; each
iteration advances `cur` by at least 12 bytes, so any `fuel ≥ total - cur`
is enough and the `0`-with-work-left branch is never reached from `scan`. -/
def scanLoop : Nat → Bytes → Nat → Nat → Dict → Except PyErr Dict
  | 0, _, _, _, kd => .ok kd
  | fuel + 1, file, total, cur, kd =>
    if cur < total then
      match decode_header (readAt file cur HEADER_SIZE) with
      | .error e => .error e
      | .ok (_, k_sz, v_sz) =>
        let header_b := readAt file cur HEADER_SIZE
        let kv_data_b := readAt file (cur + HEADER_SIZE) (k_sz + v_sz)
        match decode_kv (header_b ++ kv_data_b) with
        | .error e => .error e
        | .ok (_, k, _) =>
          scanLoop fuel file total (cur + HEADER_SIZE + k_sz + v_sz)
            (dictSet kd k cur)
    else .ok kd

/-- The `__init_db` scan from position `cur` of a `total`-byte file. -/
def scan (file : Bytes) (total cur : Nat) (kd : Dict) : Except PyErr Dict :=
  scanLoop (total - cur) file total cur kd

/-- `DiskStorage.__init__` + `__init_db` on a file whose current contents
are `file` (the file is created empty when absent, so a fresh path is
`openDisk []`): when the file is shorter than 10 bytes the loop is skipped
and the index stays empty; otherwise the file is scanned from offset 0.
A scan failure propagates out of the constructor: no object is produced. -/
def openDisk (file : Bytes) : Except PyErr DiskStorage :=
  let total_file_size := file.length
  if total_file_size < 10 then
    .ok { file := file, pos := total_file_size, key_dir := [], isOpen := true }
  else
    match scan file total_file_size 0 [] with
    | .ok kd =>
      .ok { file := file, pos := total_file_size, key_dir := kd, isOpen := true }
    | .error e => .error e

/-! ## Derived notions used to state the claims -/

/-- A string all of whose code points are ASCII (each encodes to one byte). -/
def Ascii (s : PyStr) : Prop := ∀ c ∈ s, c < 128

instance (s : PyStr) : Decidable (Ascii s) := List.decidableBAll _ s

/-- Every code point of the string is encodable: `str.encode()` succeeds
rather than raising `UnicodeEncodeError`. -/
def EncodableStr (s : PyStr) : Prop := s.all encodableChar = true

instance (s : PyStr) : Decidable (EncodableStr s) := by
  unfold EncodableStr; infer_instance

/-- The read path shared by `DiskStorage.get` and the bootstrap scan:
decode the header at `off`, then decode the full record
(header plus the declared number of body bytes). -/
def readRecord (file : Bytes) (off : Nat) : Except PyErr (Nat × PyStr × PyStr) :=
  match decode_header (readAt file off HEADER_SIZE) with
  | .error e => .error e
  | .ok (_, k_sz, v_sz) =>
    decode_kv (readAt file off HEADER_SIZE ++ readAt file (off + HEADER_SIZE) (k_sz + v_sz))

/-- One logical write: a timestamp, a key and a value. -/
abbrev Entry := Nat × PyStr × PyStr

/-- The on-disk length of the record `encode_kv` writes for an entry:
12 header bytes plus one byte per character of key and value. -/
def recLen (e : Entry) : Nat := HEADER_SIZE + e.2.1.length + e.2.2.length

/-- The 12 header bytes `encode_kv` produces for an entry. -/
def hdrBytes (e : Entry) : Bytes := le4 e.1 ++ le4 e.2.1.length ++ le4 e.2.2.length

/-- The body bytes `encode_kv` produces for an entry. -/
def bodyBytes (e : Entry) : Bytes :=
  packTo e.2.1.length (utf8EncodeAll e.2.1) ++
    packTo e.2.2.length (utf8EncodeAll e.2.2)

/-- The full record `encode_kv` produces for an entry. -/
def encRecord (e : Entry) : Bytes := hdrBytes e ++ bodyBytes e

/-- The log file produced by a sequence of writes on an initially empty file. -/
def bytesOfTrace : List Entry → Bytes
  | [] => []
  | e :: rest => encRecord e ++ bytesOfTrace rest

/-- An entry `encode_kv` accepts and whose text is ASCII, so that byte
lengths and character counts coincide and decoding is exact. -/
def WFEntry (e : Entry) : Prop :=
  e.1 < 2 ^ 32 ∧ e.2.1.length < 2 ^ 32 ∧ e.2.2.length < 2 ^ 32 ∧
    Ascii e.2.1 ∧ Ascii e.2.2

instance (e : Entry) : Decidable (WFEntry e) := by
  unfold WFEntry; infer_instance

/-- A trace of well-formed entries. -/
def WFTrace (tr : List Entry) : Prop := ∀ e ∈ tr, WFEntry e

instance (tr : List Entry) : Decidable (WFTrace tr) := List.decidableBAll _ tr

/-- The `key_dir` updates a trace of writes performs, starting from `kd`
with the first record at offset `base`. -/
def foldSets (kd : Dict) (base : Nat) : List Entry → Dict
  | [] => kd
  | e :: rest => foldSets (dictSet kd e.2.1 base) (base + recLen e) rest

/-- The byte offset of the most recently appended record for `k` in the log
laid out from `base` by a trace, if any. -/
def lastOffset (k : PyStr) (base : Nat) : List Entry → Option Nat
  | [] => none
  | e :: rest =>
    match lastOffset k (base + recLen e) rest with
    | some o => some o
    | none => if e.2.1 = k then some base else none

/-- The most recent entry of a trace whose key is `k`, if any. -/
def lastEntry (k : PyStr) : List Entry → Option Entry
  | [] => none
  | e :: rest =>
    match lastEntry k rest with
    | some e' => some e'
    | none => if e.2.1 = k then some e else none

/-- The current value of `k` after a trace of writes (last write wins). -/
def currentValue (k : PyStr) (tr : List Entry) : Option PyStr :=
  (lastEntry k tr).map (fun e => e.2.2)

/-- An operation invoked on an open engine. -/
inductive Op where
  | setOp (key value : PyStr) (timestamp : Nat)
  | getOp (key : PyStr)

/-- Run a sequence of `set`/`get` calls; a raised exception aborts the run. -/
def runOps (st : DiskStorage) : List Op → Except PyErr DiskStorage
  | [] => .ok st
  | .setOp k v t :: rest =>
    match st.set k v t with
    | .ok st' => runOps st' rest
    | .error e => .error e
  | .getOp k :: rest =>
    match (st.get k).1 with
    | .ok _ => runOps (st.get k).2 rest
    | .error e => .error e

/-- The writes of an operation sequence, in order. -/
def setsOfOps : List Op → List Entry
  | [] => []
  | .setOp k v t :: rest => (t, k, v) :: setsOfOps rest
  | .getOp _ :: rest => setsOfOps rest

/-- Every `set` of an operation sequence is well formed. -/
def WFOps (ops : List Op) : Prop := WFTrace (setsOfOps ops)

instance (ops : List Op) : Decidable (WFOps ops) := by
  unfold WFOps; infer_instance

/-- The engine states reachable by writing `tr` onto an empty log: the file
is the concatenation of the encoded records and `key_dir` maps exactly the
keys of `tr`, each to the offset of its most recent record. -/
def GoodState (tr : List Entry) (st : DiskStorage) : Prop :=
  st.isOpen = true ∧ st.file = bytesOfTrace tr ∧
    ∀ k, dictGet st.key_dir k = lastOffset k 0 tr

/-! ## Supporting lemmas -/

theorem le4_length (n : Nat) : (le4 n).length = 4 := rfl

theorem fromLE4_le4 (n : Nat) (h : n < 2 ^ 32) : fromLE4 (le4 n) = n := by
  simp only [le4, fromLE4]
  omega

theorem packTo_length (n : Nat) (b : Bytes) : (packTo n b).length = n := by
  simp [packTo]
  omega

theorem packTo_exact (b : Bytes) : packTo b.length b = b := by
  simp [packTo]

theorem utf8EncodeAll_ascii (s : PyStr) (h : Ascii s) : utf8EncodeAll s = s := by
  induction s with
  | nil => rfl
  | cons c rest ih =>
    have hc : c < 128 := h c (List.mem_cons_self _ _)
    have hrest := ih (fun x hx => h x (List.mem_cons_of_mem _ hx))
    simp only [utf8EncodeAll, List.map_cons, List.flatten_cons] at hrest ⊢
    rw [hrest, utf8EncodeChar, if_pos hc]
    rfl

theorem utf8DecodeOne_lt (c : Nat) (rest : Bytes) (hc : c < 128) :
    utf8DecodeOne c rest = some (c, rest) := by
  unfold utf8DecodeOne
  rw [if_pos hc]

theorem utf8DecodeLoop_ascii (s : PyStr) (fuel : Nat) (h : Ascii s)
    (hf : s.length ≤ fuel) : utf8DecodeLoop fuel s = some s := by
  induction s generalizing fuel with
  | nil => cases fuel <;> rfl
  | cons c rest ih =>
    cases fuel with
    | zero => simp at hf
    | succ f =>
      have hc : c < 128 := h c (List.mem_cons_self _ _)
      have hrest := ih f (fun x hx => h x (List.mem_cons_of_mem _ hx))
        (Nat.le_of_succ_le_succ (by simpa using hf))
      simp only [utf8DecodeLoop, utf8DecodeOne_lt c rest hc, hrest,
        Option.map_some']

theorem utf8Decode_ascii (s : PyStr) (h : Ascii s) : utf8Decode s = some s :=
  utf8DecodeLoop_ascii s s.length h le_rfl

theorem hdrBytes_length (e : Entry) : (hdrBytes e).length = HEADER_SIZE := by
  simp [hdrBytes, le4, HEADER_SIZE]

theorem bodyBytes_length (e : Entry) :
    (bodyBytes e).length = e.2.1.length + e.2.2.length := by
  simp [bodyBytes, packTo_length]

theorem encRecord_length (e : Entry) : (encRecord e).length = recLen e := by
  simp [encRecord, recLen, hdrBytes_length, bodyBytes_length, HEADER_SIZE]
  omega

theorem bodyBytes_ascii (e : Entry) (hk : Ascii e.2.1) (hv : Ascii e.2.2) :
    bodyBytes e = e.2.1 ++ e.2.2 := by
  simp only [bodyBytes]
  rw [utf8EncodeAll_ascii _ hk, utf8EncodeAll_ascii _ hv, packTo_exact,
    packTo_exact]

theorem decode_header_hdrBytes (e : Entry) (h1 : e.1 < 2 ^ 32)
    (h2 : e.2.1.length < 2 ^ 32) (h3 : e.2.2.length < 2 ^ 32) :
    decode_header (hdrBytes e) = .ok (e.1, e.2.1.length, e.2.2.length) := by
  simp only [hdrBytes, decode_header, le4, HEADER_SIZE]
  norm_num
  simp only [fromLE4]
  omega

theorem decode_kv_encRecord (e : Entry) (h : WFEntry e) :
    decode_kv (encRecord e) = .ok e := by
  obtain ⟨t, k, v⟩ := e
  obtain ⟨h1, h2, h3, hk, hv⟩ := h
  simp only [encRecord, decode_kv]
  rw [List.take_left' (hdrBytes_length _), List.drop_left' (hdrBytes_length _),
    decode_header_hdrBytes _ h1 h2 h3, bodyBytes_ascii _ hk hv]
  simp only [List.length_append, if_pos rfl, List.take_left, List.drop_left,
    utf8Decode_ascii _ hk, utf8Decode_ascii _ hv]
  simp

theorem dictGet_dictSet (d : Dict) (k k' : PyStr) (v : Nat) :
    dictGet (dictSet d k v) k' = if k = k' then some v else dictGet d k' := by
  induction d with
  | nil => simp [dictGet, dictSet]
  | cons p rest ih =>
    obtain ⟨k0, v0⟩ := p
    simp only [dictSet]
    split_ifs with h1 <;> simp only [dictGet, ih] <;> split_ifs <;> simp_all

theorem readAt_append (pre x : Bytes) (n : Nat) :
    readAt (pre ++ x) pre.length n = x.take n := by
  simp [readAt, List.drop_left]

theorem readAt_append_add (pre x : Bytes) (d n : Nat) :
    readAt (pre ++ x) (pre.length + d) n = readAt x d n := by
  simp only [readAt]
  rw [← List.drop_drop, List.drop_left]

theorem readAt_hdr (pre rest : Bytes) (e : Entry) :
    readAt (pre ++ (encRecord e ++ rest)) pre.length HEADER_SIZE = hdrBytes e := by
  rw [readAt_append, encRecord, List.append_assoc,
    List.take_left' (hdrBytes_length e)]

theorem readAt_body (pre rest : Bytes) (e : Entry) :
    readAt (pre ++ (encRecord e ++ rest)) (pre.length + HEADER_SIZE)
      (e.2.1.length + e.2.2.length) = bodyBytes e := by
  rw [readAt_append_add, encRecord, List.append_assoc, readAt,
    List.drop_left' (hdrBytes_length e), List.take_left' (bodyBytes_length e)]

theorem readRecord_append (pre rest : Bytes) (e : Entry) (h : WFEntry e) :
    readRecord (pre ++ (encRecord e ++ rest)) pre.length = .ok e := by
  simp only [readRecord, readAt_hdr, decode_header_hdrBytes e h.1 h.2.1 h.2.2.1,
    readAt_body]
  rw [← encRecord]
  exact decode_kv_encRecord e h

theorem bytesOfTrace_append (tr tr' : List Entry) :
    bytesOfTrace (tr ++ tr') = bytesOfTrace tr ++ bytesOfTrace tr' := by
  induction tr with
  | nil => simp [bytesOfTrace]
  | cons e rest ih => simp [bytesOfTrace, ih]

theorem scanLoop_spec (tr : List Entry) :
    ∀ (fuel : Nat) (pre : Bytes) (kd : Dict), WFTrace tr → tr.length ≤ fuel →
    scanLoop fuel (pre ++ bytesOfTrace tr)
        (pre.length + (bytesOfTrace tr).length) pre.length kd
      = .ok (foldSets kd pre.length tr) := by
  induction tr with
  | nil =>
    intro fuel pre kd _ _
    cases fuel <;> simp [scanLoop, bytesOfTrace, foldSets]
  | cons e tr ih =>
    intro fuel pre kd hwf hf
    cases fuel with
    | zero => simp at hf
    | succ f =>
      have he : WFEntry e := hwf e (List.mem_cons_self _ _)
      have hwf' : WFTrace tr := fun x hx => hwf x (List.mem_cons_of_mem _ hx)
      have hlen := encRecord_length e
      have hrl : 12 ≤ recLen e := by simp only [recLen, HEADER_SIZE]; omega
      simp only [bytesOfTrace, scanLoop]
      rw [if_pos (by simp only [List.length_append]; omega)]
      simp only [readAt_hdr, decode_header_hdrBytes e he.1 he.2.1 he.2.2.1,
        readAt_body]
      rw [← encRecord, decode_kv_encRecord e he]
      have step := ih f (pre ++ encRecord e) (dictSet kd e.2.1 pre.length) hwf'
        (Nat.le_of_succ_le_succ (by simpa using hf))
      rw [List.append_assoc] at step
      simp only [List.length_append, hlen] at step
      simp only [foldSets]
      convert step using 2 <;>
        simp only [List.length_append, hlen, recLen, HEADER_SIZE] <;> omega

theorem length_le_bytesOfTrace (tr : List Entry) :
    tr.length ≤ (bytesOfTrace tr).length := by
  induction tr with
  | nil => simp [bytesOfTrace]
  | cons e tr ih =>
    have := encRecord_length e
    have : 12 ≤ recLen e := by simp only [recLen, HEADER_SIZE]; omega
    simp only [bytesOfTrace, List.length_append, List.length_cons]
    omega

theorem bytesOfTrace_nil_of_short (tr : List Entry)
    (h : (bytesOfTrace tr).length < 10) : tr = [] := by
  cases tr with
  | nil => rfl
  | cons e tr =>
    have h1 := encRecord_length e
    have h2 : 12 ≤ recLen e := by simp only [recLen, HEADER_SIZE]; omega
    simp only [bytesOfTrace, List.length_append] at h
    omega

theorem scan_spec (tr : List Entry) (hwf : WFTrace tr) :
    scan (bytesOfTrace tr) (bytesOfTrace tr).length 0 [] =
      .ok (foldSets [] 0 tr) := by
  have := scanLoop_spec tr ((bytesOfTrace tr).length - 0) [] [] hwf
    (le_trans (length_le_bytesOfTrace tr) (by omega))
  simpa [scan] using this

theorem dictGet_foldSets (tr : List Entry) :
    ∀ (kd : Dict) (base : Nat) (k : PyStr),
    dictGet (foldSets kd base tr) k =
      match lastOffset k base tr with
      | some o => some o
      | none => dictGet kd k := by
  induction tr with
  | nil => intro kd base k; simp [foldSets, lastOffset]
  | cons e tr ih =>
    intro kd base k
    simp only [foldSets, lastOffset, ih, dictGet_dictSet]
    cases lastOffset k (base + recLen e) tr with
    | some o => simp
    | none =>
      by_cases h : e.2.1 = k <;> simp [h]

theorem dictGet_foldSets_nil (tr : List Entry) (base : Nat) (k : PyStr) :
    dictGet (foldSets [] base tr) k = lastOffset k base tr := by
  rw [dictGet_foldSets]
  cases lastOffset k base tr <;> simp [dictGet]

theorem openDisk_trace (tr : List Entry) (hwf : WFTrace tr) :
    openDisk (bytesOfTrace tr) =
      .ok { file := bytesOfTrace tr, pos := (bytesOfTrace tr).length,
            key_dir := foldSets [] 0 tr, isOpen := true } := by
  unfold openDisk
  simp only []
  split_ifs with h
  · have : tr = [] := bytesOfTrace_nil_of_short tr h
    subst this
    rfl
  · rw [scan_spec tr hwf]

theorem ascii_encodableStr (s : PyStr) (h : Ascii s) : EncodableStr s := by
  unfold EncodableStr
  rw [List.all_eq_true]
  intro c hc
  have hcl := h c hc
  simp only [encodableChar, Bool.or_eq_true, decide_eq_true_eq]
  left
  omega

theorem encodeStr_of_encodable (s : PyStr) (h : EncodableStr s) :
    encodeStr s = some (utf8EncodeAll s) := by
  unfold encodeStr
  rw [if_pos (show s.all encodableChar = true from h)]

theorem encodeStr_ascii (s : PyStr) (h : Ascii s) : encodeStr s = some s := by
  rw [encodeStr_of_encodable s (ascii_encodableStr s h), utf8EncodeAll_ascii s h]

theorem encode_kv_eq (t : Nat) (k v : PyStr) (h1 : t < 2 ^ 32)
    (h2 : k.length < 2 ^ 32) (h3 : v.length < 2 ^ 32)
    (hke : EncodableStr k) (hve : EncodableStr v) :
    encode_kv t k v = .ok (recLen (t, k, v), encRecord (t, k, v)) := by
  rw [← encRecord_length (t, k, v)]
  simp only [encode_kv, encodeStr_of_encodable k hke,
    encodeStr_of_encodable v hve, encode_header,
    if_pos (And.intro h1 (And.intro h2 h3))]
  rfl

theorem lastOffset_none_iff (tr : List Entry) (k : PyStr) :
    ∀ base, lastOffset k base tr = none ↔ lastEntry k tr = none := by
  induction tr with
  | nil => intro base; simp [lastOffset, lastEntry]
  | cons e tr ih =>
    intro base
    simp only [lastOffset, lastEntry]
    cases h1 : lastOffset k (base + recLen e) tr with
    | some o =>
      have hne : lastEntry k tr ≠ none := fun hn => by
        rw [(ih (base + recLen e)).mpr hn] at h1
        exact Option.noConfusion h1
      cases h2 : lastEntry k tr with
      | some e' => simp
      | none => exact absurd h2 hne
    | none =>
      have h2 := (ih (base + recLen e)).mp h1
      rw [h2]
      by_cases h : e.2.1 = k <;> simp [h]

theorem lastOffset_append (tr tr' : List Entry) (k : PyStr) :
    ∀ base, lastOffset k base (tr ++ tr') =
      match lastOffset k (base + (bytesOfTrace tr).length) tr' with
      | some o => some o
      | none => lastOffset k base tr := by
  induction tr with
  | nil =>
    intro base
    simp only [List.nil_append, bytesOfTrace, List.length_nil, Nat.add_zero,
      lastOffset]
    cases lastOffset k base tr' <;> simp
  | cons e tr ih =>
    intro base
    have hcons : (e :: tr) ++ tr' = e :: (tr ++ tr') := rfl
    rw [hcons]
    simp only [lastOffset]
    rw [ih (base + recLen e)]
    simp only [bytesOfTrace, List.length_append, encRecord_length]
    have harith : base + recLen e + (bytesOfTrace tr).length =
        base + (recLen e + (bytesOfTrace tr).length) := by omega
    rw [harith]
    cases lastOffset k (base + (recLen e + (bytesOfTrace tr).length)) tr' <;>
      cases lastOffset k (base + recLen e) tr <;> simp

theorem lastEntry_append (tr tr' : List Entry) (k : PyStr) :
    lastEntry k (tr ++ tr') =
      match lastEntry k tr' with
      | some e => some e
      | none => lastEntry k tr := by
  induction tr with
  | nil =>
    simp only [List.nil_append, lastEntry]
    cases lastEntry k tr' <;> simp
  | cons e tr ih =>
    have hcons : (e :: tr) ++ tr' = e :: (tr ++ tr') := rfl
    rw [hcons]
    simp only [lastEntry, ih]
    cases lastEntry k tr' <;> cases lastEntry k tr <;> simp

theorem lastOffset_readRecord (tr : List Entry) (hwf : WFTrace tr) (k : PyStr) :
    ∀ (pre : Bytes) (off : Nat), lastOffset k pre.length tr = some off →
    ∃ e, lastEntry k tr = some e ∧ e.2.1 = k ∧
      readRecord (pre ++ bytesOfTrace tr) off = .ok e := by
  induction tr with
  | nil => intro pre off h; simp [lastOffset] at h
  | cons e tr ih =>
    intro pre off h
    have he : WFEntry e := hwf e (List.mem_cons_self _ _)
    have hwf' : WFTrace tr := fun x hx => hwf x (List.mem_cons_of_mem _ hx)
    simp only [lastOffset] at h
    cases h1 : lastOffset k (pre.length + recLen e) tr with
    | some o =>
      rw [h1] at h
      simp only [Option.some.injEq] at h
      subst h
      have hpre : (pre ++ encRecord e).length = pre.length + recLen e := by
        simp [List.length_append, encRecord_length]
      rw [← hpre] at h1
      obtain ⟨e', he1, he2, he3⟩ := ih hwf' (pre ++ encRecord e) o h1
      refine ⟨e', ?_, he2, ?_⟩
      · simp only [lastEntry, he1]
      · rw [List.append_assoc] at he3
        simpa [bytesOfTrace] using he3
    | none =>
      rw [h1] at h
      by_cases hk : e.2.1 = k
      · rw [if_pos hk] at h
        simp only [Option.some.injEq] at h
        subst h
        have h2 : lastEntry k tr = none := (lastOffset_none_iff tr k _).mp h1
        refine ⟨e, ?_, hk, ?_⟩
        · simp only [lastEntry, h2, if_pos hk]
        · simpa [bytesOfTrace] using readRecord_append pre (bytesOfTrace tr) e he
      · rw [if_neg hk] at h
        exact absurd h (by simp)

theorem set_ok (st : DiskStorage) (e : Entry) (hopen : st.isOpen = true)
    (h1 : e.1 < 2 ^ 32) (h2 : e.2.1.length < 2 ^ 32)
    (h3 : e.2.2.length < 2 ^ 32) (hke : EncodableStr e.2.1)
    (hve : EncodableStr e.2.2) :
    st.set e.2.1 e.2.2 e.1 = .ok
      { file := st.file ++ encRecord e
        pos := st.file.length + (encRecord e).length
        key_dir := dictSet st.key_dir e.2.1 st.file.length
        isOpen := true } := by
  simp only [DiskStorage.set, hopen, if_true,
    encode_kv_eq e.1 e.2.1 e.2.2 h1 h2 h3 hke hve]

theorem set_goodState (tr : List Entry) (st : DiskStorage) (e : Entry)
    (hg : GoodState tr st) (he : WFEntry e) :
    ∃ st', st.set e.2.1 e.2.2 e.1 = .ok st' ∧ GoodState (tr ++ [e]) st' := by
  obtain ⟨hopen, hfile, hdir⟩ := hg
  refine ⟨_, set_ok st e hopen he.1 he.2.1 he.2.2.1
    (ascii_encodableStr _ he.2.2.2.1) (ascii_encodableStr _ he.2.2.2.2),
    rfl, ?_, ?_⟩
  · rw [hfile, bytesOfTrace_append]
    simp [bytesOfTrace]
  · intro k
    simp only
    rw [dictGet_dictSet, lastOffset_append tr [e] k 0]
    simp only [lastOffset, Nat.zero_add]
    by_cases hk : e.2.1 = k
    · simp [hk, hfile]
    · simp [hk, hdir k]

theorem get_frame (st : DiskStorage) (k : PyStr) :
    ((st.get k).2).file = st.file ∧ ((st.get k).2).key_dir = st.key_dir ∧
      ((st.get k).2).isOpen = st.isOpen := by
  simp only [DiskStorage.get]
  repeat' split
  all_goals simp

theorem get_missing (st : DiskStorage) (k : PyStr)
    (h : dictGet st.key_dir k = none) : st.get k = (.ok [], st) := by
  simp [DiskStorage.get, h]

theorem get_eq_readRecord (st : DiskStorage) (k : PyStr) (off : Nat)
    (hopen : st.isOpen = true) (hdir : dictGet st.key_dir k = some off) :
    (st.get k).1 = (readRecord st.file off).map (fun r => r.2.2) := by
  simp only [DiskStorage.get, readRecord, hdir, hopen, if_true]
  cases hd : decode_header (readAt st.file off HEADER_SIZE) with
  | error e => rfl
  | ok trip =>
    obtain ⟨t, ks, vs⟩ := trip
    simp only
    cases hk : decode_kv (readAt st.file off HEADER_SIZE ++
        readAt st.file (off + HEADER_SIZE) (ks + vs)) with
    | error e => simp only [hk]; rfl
    | ok r =>
      obtain ⟨a, b, c⟩ := r
      simp only [hk]; rfl

theorem get_on_good (tr : List Entry) (st : DiskStorage) (k : PyStr)
    (hwf : WFTrace tr) (hg : GoodState tr st) :
    (st.get k).1 = .ok ((currentValue k tr).getD []) := by
  obtain ⟨hopen, hfile, hdir⟩ := hg
  cases h : dictGet st.key_dir k with
  | none =>
    have hlo : lastOffset k 0 tr = none := by rw [← hdir k, h]
    have hle := (lastOffset_none_iff tr k 0).mp hlo
    simp [get_missing st k h, currentValue, hle]
  | some off =>
    have hlo : lastOffset k 0 tr = some off := by rw [← hdir k, h]
    obtain ⟨e, he1, he2, he3⟩ :=
      lastOffset_readRecord tr hwf k [] off (by simpa using hlo)
    rw [get_eq_readRecord st k off hopen h, hfile]
    simp only [List.nil_append] at he3
    rw [he3]
    simp [currentValue, he1, Except.map]

theorem runOps_goodState (ops : List Op) :
    ∀ (tr : List Entry) (st st' : DiskStorage), GoodState tr st → WFTrace tr →
      WFOps ops → runOps st ops = .ok st' →
      GoodState (tr ++ setsOfOps ops) st' := by
  induction ops with
  | nil =>
    intro tr st st' hg hwf hops h
    simp only [runOps, Except.ok.injEq] at h
    subst h
    simpa [setsOfOps] using hg
  | cons op rest ih =>
    intro tr st st' hg hwf hops h
    cases op with
    | setOp k v t =>
      have he : WFEntry (t, k, v) := hops (t, k, v) (List.mem_cons_self _ _)
      have hops' : WFOps rest := fun e hme => hops e (List.mem_cons_of_mem _ hme)
      obtain ⟨st1, hset, hg1⟩ := set_goodState tr st (t, k, v) hg he
      have hset' : st.set k v t = .ok st1 := hset
      simp only [runOps, hset'] at h
      have hwf1 : WFTrace (tr ++ [(t, k, v)]) := by
        intro e hme
        rcases List.mem_append.mp hme with h' | h'
        · exact hwf e h'
        · simp only [List.mem_singleton] at h'
          subst h'
          exact he
      have := ih (tr ++ [(t, k, v)]) st1 st' hg1 hwf1 hops' h
      simpa [setsOfOps, List.append_assoc] using this
    | getOp k =>
      have hget := get_on_good tr st k hwf hg
      simp only [runOps, hget] at h
      obtain ⟨hf1, hf2, hf3⟩ := get_frame st k
      have hg2 : GoodState tr ((st.get k).2) :=
        ⟨by rw [hf3]; exact hg.1, by rw [hf1]; exact hg.2.1,
          fun k' => by rw [hf2]; exact hg.2.2 k'⟩
      have := ih tr ((st.get k).2) st' hg2 hwf hops h
      simpa [setsOfOps] using this

theorem openDisk_goodState (tr : List Entry) (hwf : WFTrace tr)
    (st : DiskStorage) (h : openDisk (bytesOfTrace tr) = .ok st) :
    GoodState tr st := by
  rw [openDisk_trace tr hwf] at h
  simp only [Except.ok.injEq] at h
  subst h
  exact ⟨rfl, rfl, fun k => dictGet_foldSets_nil tr 0 k⟩

/-! ## Claims -/

/-- C1, counterexample: the codec round trip fails on the code as stated.
For the valid triple `(0, "é", "a")` (`"é"` is the single code point 233,
UTF-8 `C3 A9`), `encode_kv` succeeds but packs the key into `len("é") = 1`
byte, truncating its 2-byte encoding to `C3`, and `decode_kv` on the
resulting bytes raises `UnicodeDecodeError` instead of returning the
triple. -/
theorem C1_counterexample :
    (encode_kv 0 [233] [97]).map (fun p => decode_kv p.2) =
      .ok (.error .unicodeDecodeError) := rfl

/-- C1, amended: for every triple whose timestamp and sizes fit 32 bits and
whose key and value are ASCII (so that byte length equals character count
and no truncation occurs), decoding the bytes produced by `encode_kv`
yields the triple back. -/
theorem C1_roundtrip (t : Nat) (k v : PyStr) (h1 : t < 2 ^ 32)
    (h2 : k.length < 2 ^ 32) (h3 : v.length < 2 ^ 32)
    (hk : Ascii k) (hv : Ascii v) :
    (encode_kv t k v).map (fun p => decode_kv p.2) = .ok (.ok (t, k, v)) := by
  rw [encode_kv_eq t k v h1 h2 h3 (ascii_encodableStr k hk)
    (ascii_encodableStr v hv)]
  show Except.ok (decode_kv (encRecord (t, k, v))) = _
  rw [decode_kv_encRecord (t, k, v) ⟨h1, h2, h3, hk, hv⟩]

theorem C1_roundtrip_witness :
    7 < 2 ^ 32 ∧ ([104] : PyStr).length < 2 ^ 32 ∧
      ([97] : PyStr).length < 2 ^ 32 ∧ Ascii [104] ∧ Ascii [97] ∧
      (encode_kv 7 [104] [97]).map (fun p => decode_kv p.2) =
        .ok (.ok (7, [104], [97])) :=
  ⟨by norm_num, by norm_num, by norm_num, by decide, by decide,
    C1_roundtrip 7 [104] [97] (by norm_num) (by norm_num) (by norm_num)
      (by decide) (by decide)⟩

/-- C2, counterexample: for key `"é"` (code point 233, encoding to 2 bytes)
and value `"a"`, `encode_kv` returns total length `14 = 12 + 1 + 1`
(character counts) rather than `15 = 12 + 2 + 1` (byte lengths of the
encoded text), and the `key_size` field written into the header is `1`
(the character count) while the byte length of the encoded key is `2`.
Moreover `encode_kv` does not even return a total length for every text:
for the lone-surrogate key `'\ud800'` it raises `UnicodeEncodeError`. -/
theorem C2_counterexample :
    (encode_kv 0 [233] [97]).map Prod.fst = .ok 14 ∧
      (encodeStr [233]).map List.length = some 2 ∧
      (encodeStr [97]).map List.length = some 1 ∧
      (14 : Nat) ≠ 12 + 2 + 1 ∧
      (encode_kv 0 [233] [97]).map
          (fun p => decode_header (p.2.take HEADER_SIZE)) =
        .ok (.ok (0, 1, 1)) ∧
      encode_kv 0 [0xD800] [97] = .error .unicodeEncodeError :=
  ⟨rfl, rfl, rfl, by decide, rfl, rfl⟩

/-- C2, amended: for every encodable key and value (no lone surrogates, so
`str.encode()` succeeds rather than raising `UnicodeEncodeError`; sizes
within 32 bits), `encode_kv` returns a total length of `12 +` the
CHARACTER counts of key and value — not their encoded byte lengths — the
produced bytes have exactly that length, and the `key_size`/`value_size`
header fields equal those character counts. -/
theorem C2_sizes (t : Nat) (k v : PyStr) (h1 : t < 2 ^ 32)
    (h2 : k.length < 2 ^ 32) (h3 : v.length < 2 ^ 32)
    (hke : EncodableStr k) (hve : EncodableStr v) :
    encode_kv t k v = .ok (12 + k.length + v.length, encRecord (t, k, v)) ∧
      (encRecord (t, k, v)).length = 12 + k.length + v.length ∧
      decode_header ((encRecord (t, k, v)).take HEADER_SIZE) =
        .ok (t, k.length, v.length) := by
  have hlen : recLen (t, k, v) = 12 + k.length + v.length := by
    simp only [recLen, HEADER_SIZE]
  refine ⟨?_, ?_, ?_⟩
  · rw [encode_kv_eq t k v h1 h2 h3 hke hve, hlen]
  · rw [encRecord_length, hlen]
  · rw [encRecord, List.take_left' (hdrBytes_length _),
      decode_header_hdrBytes (t, k, v) h1 h2 h3]

theorem C2_sizes_witness :
    9 < 2 ^ 32 ∧ ([233] : PyStr).length < 2 ^ 32 ∧
      ([97, 98] : PyStr).length < 2 ^ 32 ∧
      EncodableStr [233] ∧ EncodableStr [97, 98] ∧
      (encode_kv 9 [233] [97, 98] =
          .ok (12 + ([233] : PyStr).length + ([97, 98] : PyStr).length,
            encRecord (9, [233], [97, 98])) ∧
        (encRecord (9, [233], [97, 98])).length =
          12 + ([233] : PyStr).length + ([97, 98] : PyStr).length ∧
        decode_header ((encRecord (9, [233], [97, 98])).take HEADER_SIZE) =
          .ok (9, ([233] : PyStr).length, ([97, 98] : PyStr).length)) :=
  ⟨by norm_num, by norm_num, by norm_num, by decide, by decide,
    C2_sizes 9 [233] [97, 98] (by norm_num) (by norm_num) (by norm_num)
      (by decide) (by decide)⟩

/-- C3, counterexample: the empty-store threshold in the code is
`total_file_size < 10`, not one header's worth (12). A 10-byte file is NOT
treated as an empty store: the scan runs, reads only 10 of the 12 header
bytes, and open fails with `struct.error` — not with an engine holding an
empty index, and not with a `CorruptRecordError` (no such exception exists
in the code). -/
theorem C3_counterexample :
    openDisk (List.replicate 10 0) = .error .structError := rfl

/-- C3, amended: (1) a file SHORTER THAN 10 bytes yields an engine with an
empty index; (2) if at some scan position fewer than the 12 header bytes
remain, the scan fails with `struct.error`; (3) if the header decodes but
fewer bytes remain than the declared body requires, the scan fails with
`struct.error`; (4) a scan failure makes open fail with the same error, so
no engine with a partial index is returned. -/
theorem C3_open (file : Bytes) :
    (file.length < 10 → openDisk file =
        .ok { file := file, pos := file.length, key_dir := [], isOpen := true }) ∧
    (∀ p kd, p < file.length → file.length < p + HEADER_SIZE →
        scan file file.length p kd = .error .structError) ∧
    (∀ p kd t k_sz v_sz, p + HEADER_SIZE ≤ file.length →
        decode_header (readAt file p HEADER_SIZE) = .ok (t, k_sz, v_sz) →
        file.length < p + HEADER_SIZE + k_sz + v_sz →
        scan file file.length p kd = .error .structError) ∧
    (∀ e, 10 ≤ file.length → scan file file.length 0 [] = .error e →
        openDisk file = .error e) := by
  refine ⟨?_, ?_, ?_, ?_⟩
  · intro h
    simp only [openDisk]
    rw [if_pos h]
  · intro p kd hp hshort
    simp only [HEADER_SIZE] at hshort
    obtain ⟨f, hf⟩ : ∃ f, file.length - p = f + 1 := ⟨file.length - p - 1, by omega⟩
    have hd : decode_header (readAt file p HEADER_SIZE) = .error .structError := by
      simp only [decode_header, readAt, List.length_take, List.length_drop,
        HEADER_SIZE]
      rw [if_neg (by omega)]
    simp only [scan, hf, scanLoop, if_pos hp, hd]
  · intro p kd t k_sz v_sz hple hd hshort
    simp only [HEADER_SIZE] at hple hshort
    have hp : p < file.length := by omega
    obtain ⟨f, hf⟩ : ∃ f, file.length - p = f + 1 := ⟨file.length - p - 1, by omega⟩
    have hhb : (readAt file p HEADER_SIZE).length = HEADER_SIZE := by
      simp only [readAt, List.length_take, List.length_drop, HEADER_SIZE]
      omega
    have hkv : (readAt file (p + HEADER_SIZE) (k_sz + v_sz)).length
        = file.length - (p + 12) := by
      simp only [readAt, List.length_take, List.length_drop, HEADER_SIZE]
      omega
    have hdkv : decode_kv (readAt file p HEADER_SIZE ++
        readAt file (p + HEADER_SIZE) (k_sz + v_sz)) = .error .structError := by
      simp only [decode_kv, List.take_left' hhb, hd, List.drop_left' hhb]
      rw [if_neg (by omega)]
    simp only [scan, hf, scanLoop, if_pos hp, hd, hdkv]
  · intro e h10 hscan
    simp only [openDisk]
    rw [if_neg (by omega), hscan]

theorem C3_open_witness :
    (List.replicate 10 0 : Bytes).length < 12 ∧
      openDisk ([] : Bytes) =
        .ok { file := [], pos := ([] : Bytes).length, key_dir := [],
              isOpen := true } ∧
      scan (List.replicate 10 0) (List.replicate 10 0 : Bytes).length 0 [] =
        .error .structError ∧
      scan [0, 0, 0, 0, 1, 0, 0, 0, 1, 0, 0, 0, 97]
          ([0, 0, 0, 0, 1, 0, 0, 0, 1, 0, 0, 0, 97] : Bytes).length 0 [] =
        .error .structError ∧
      openDisk (List.replicate 10 0) = .error .structError := by
  refine ⟨by decide, (C3_open []).1 (by decide), ?_, ?_, ?_⟩
  · exact (C3_open (List.replicate 10 0)).2.1 0 [] (by decide) (by decide)
  · exact (C3_open [0, 0, 0, 0, 1, 0, 0, 0, 1, 0, 0, 0, 97]).2.2.1 0 [] 0 1 1
      (by decide) rfl (by decide)
  · exact (C3_open (List.replicate 10 0)).2.2.2 .structError (by decide)
      ((C3_open (List.replicate 10 0)).2.1 0 [] (by decide) (by decide))

/-- C4, counterexample: last-write-wins does not hold for every value.
After `set "h" "a"` then `set "h" "éa"` (`"éa"` = code points `[233, 97]`),
`get "h"` returns `"é"` (`[233]`) — the second write was truncated to its
2-character count of bytes, so the value read back differs from the one
written. -/
theorem C4_counterexample :
    ((((openDisk []).bind (fun s => s.set [104] [97] 1)).bind
        (fun s => s.set [104] [233, 97] 2)).map (fun s => (s.get [104]).1)) =
      .ok (.ok [233]) ∧ ([233] : PyStr) ≠ [233, 97] :=
  ⟨rfl, by decide⟩

/-- C4, amended: for ASCII keys and values (timestamps and sizes within 32
bits), after `set k v1` then `set k v2` on a freshly opened empty store,
`get k` returns `v2`, and the log file physically contains both records —
the file is exactly the first record's bytes followed by the second's. -/
theorem C4_lww (k v1 v2 : PyStr) (t1 t2 : Nat)
    (ht1 : t1 < 2 ^ 32) (ht2 : t2 < 2 ^ 32) (hkl : k.length < 2 ^ 32)
    (hv1l : v1.length < 2 ^ 32) (hv2l : v2.length < 2 ^ 32)
    (hk : Ascii k) (hv1 : Ascii v1) (hv2 : Ascii v2) :
    ∃ st1 st2,
      (openDisk []).bind (fun s => s.set k v1 t1) = .ok st1 ∧
      st1.set k v2 t2 = .ok st2 ∧
      encode_kv t1 k v1 = .ok (recLen (t1, k, v1), encRecord (t1, k, v1)) ∧
      encode_kv t2 k v2 = .ok (recLen (t2, k, v2), encRecord (t2, k, v2)) ∧
      st2.file = encRecord (t1, k, v1) ++ encRecord (t2, k, v2) ∧
      dictGet st2.key_dir k = some (encRecord (t1, k, v1)).length ∧
      (st2.get k).1 = .ok v2 := by
  have he1 : WFEntry (t1, k, v1) := ⟨ht1, hkl, hv1l, hk, hv1⟩
  have he2 : WFEntry (t2, k, v2) := ⟨ht2, hkl, hv2l, hk, hv2⟩
  have hg0 : GoodState []
      { file := [], pos := 0, key_dir := [], isOpen := true } :=
    ⟨rfl, rfl, fun _ => rfl⟩
  obtain ⟨st1, hset1, hg1⟩ := set_goodState [] _ (t1, k, v1) hg0 he1
  obtain ⟨st2, hset2, hg2⟩ :=
    set_goodState [(t1, k, v1)] st1 (t2, k, v2) hg1 he2
  have hwf12 : WFTrace [(t1, k, v1), (t2, k, v2)] := by
    intro e he
    simp only [List.mem_cons, List.not_mem_nil, or_false] at he
    rcases he with rfl | rfl
    · exact he1
    · exact he2
  refine ⟨st1, st2, hset1, hset2,
    encode_kv_eq _ _ _ ht1 hkl hv1l (ascii_encodableStr _ hk)
      (ascii_encodableStr _ hv1),
    encode_kv_eq _ _ _ ht2 hkl hv2l (ascii_encodableStr _ hk)
      (ascii_encodableStr _ hv2), ?_, ?_, ?_⟩
  · rw [hg2.2.1]
    simp [bytesOfTrace]
  · rw [hg2.2.2 k]
    simp [lastOffset, encRecord_length]
  · have := get_on_good [(t1, k, v1), (t2, k, v2)] st2 k hwf12 hg2
    simpa [currentValue, lastEntry] using this

theorem C4_lww_witness :
    1 < 2 ^ 32 ∧ 2 < 2 ^ 32 ∧ ([104] : PyStr).length < 2 ^ 32 ∧
      ([97] : PyStr).length < 2 ^ 32 ∧ ([98] : PyStr).length < 2 ^ 32 ∧
      Ascii [104] ∧ Ascii [97] ∧ Ascii [98] ∧
      (∃ st1 st2,
        (openDisk []).bind (fun s => s.set [104] [97] 1) = .ok st1 ∧
        st1.set [104] [98] 2 = .ok st2 ∧
        encode_kv 1 [104] [97] =
          .ok (recLen (1, [104], [97]), encRecord (1, [104], [97])) ∧
        encode_kv 2 [104] [98] =
          .ok (recLen (2, [104], [98]), encRecord (2, [104], [98])) ∧
        st2.file = encRecord (1, [104], [97]) ++ encRecord (2, [104], [98]) ∧
        dictGet st2.key_dir [104] = some (encRecord (1, [104], [97])).length ∧
        (st2.get [104]).1 = .ok [98]) :=
  ⟨by norm_num, by norm_num, by norm_num, by norm_num, by norm_num,
    by decide, by decide, by decide,
    C4_lww [104] [97] [98] 1 2 (by norm_num) (by norm_num) (by norm_num)
      (by norm_num) (by norm_num) (by decide) (by decide) (by decide)⟩

/-- C5, counterexample: the NotFound result is the empty string `""`, which
is NOT distinguishable from a stored value: after `set "h" ""`, `get "h"`
(a stored value) and `get "n"` (a missing key, absent from the index)
return the identical result `.ok ""`. -/
theorem C5_counterexample :
    ((openDisk []).bind (fun s => s.set [104] [] 5)).map
        (fun s => ((s.get [104]).1, (s.get [110]).1, dictGet s.key_dir [110])) =
      .ok (.ok [], .ok [], none) := rfl

/-- C5, amended: for every key absent from the index of an engine, `get`
returns the empty string `""` without raising and leaves the state
untouched — this holds on an empty store and on a populated one, but the
`""` result coincides with a stored empty-string value, so it is not a
distinguishable NotFound indicator. -/
theorem C5_missing (st : DiskStorage) (k : PyStr)
    (h : dictGet st.key_dir k = none) : st.get k = (.ok [], st) :=
  get_missing st k h

theorem C5_missing_witness :
    dictGet (DiskStorage.mk [] 0 [] true).key_dir [104] = none ∧
      (DiskStorage.mk [] 0 [] true).get [104] =
        (.ok [], DiskStorage.mk [] 0 [] true) :=
  ⟨rfl, C5_missing (DiskStorage.mk [] 0 [] true) [104] rfl⟩

/-- C6, counterexample: after `close`, not every operation fails. Python's
`file.close()` is idempotent, so a second `close` succeeds as a no-op, and
`get` on a key absent from the index returns `""` successfully because the
index is consulted before the file handle is touched. No `NotOpenError`
exists in the code. -/
theorem C6_counterexample :
    ((openDisk []).bind (fun s => s.close)).bind (fun s => s.close) =
      .ok { file := [], pos := 0, key_dir := [], isOpen := false } ∧
      ((openDisk []).bind (fun s => s.close)).map (fun s => (s.get [104]).1) =
        .ok (.ok []) :=
  ⟨rfl, rfl⟩

/-- C6, amended: on a closed engine, `set` and `get`-of-a-present-key fail
with `ValueError` (I/O operation on closed file) — not a dedicated
`NotOpenError` — while `get` of an absent key still returns `""`
successfully and `close` succeeds as a no-op. -/
theorem C6_closed (st : DiskStorage) (hclosed : st.isOpen = false) :
    (∀ k v t, st.set k v t = .error .valueError) ∧
    (∀ k off, dictGet st.key_dir k = some off →
        (st.get k).1 = .error .valueError) ∧
    (∀ k, dictGet st.key_dir k = none → st.get k = (.ok [], st)) ∧
    st.close = .ok { st with isOpen := false } := by
  refine ⟨?_, ?_, fun k h => get_missing st k h, rfl⟩
  · intro k v t
    simp [DiskStorage.set, hclosed]
  · intro k off h
    simp [DiskStorage.get, h, hclosed]

theorem C6_closed_witness :
    (DiskStorage.mk [] 0 [([104], 0)] false).isOpen = false ∧
      (DiskStorage.mk [] 0 [([104], 0)] false).set [105] [97] 3 =
        .error .valueError ∧
      ((DiskStorage.mk [] 0 [([104], 0)] false).get [104]).1 =
        .error .valueError ∧
      (DiskStorage.mk [] 0 [([104], 0)] false).get [110] =
        (.ok [], DiskStorage.mk [] 0 [([104], 0)] false) ∧
      (DiskStorage.mk [] 0 [([104], 0)] false).close =
        .ok (DiskStorage.mk [] 0 [([104], 0)] false) :=
  ⟨rfl,
    (C6_closed _ rfl).1 [105] [97] 3,
    (C6_closed _ rfl).2.1 [104] 0 rfl,
    (C6_closed _ rfl).2.2.1 [110] rfl,
    (C6_closed _ rfl).2.2.2⟩

/-- C7, counterexample: after `set "é" "a"` on a fresh store, the index
maps `"é"` (code point 233) to offset 0 — the most recent record — but
decoding the record at that offset raises `UnicodeDecodeError` (the key
bytes were truncated on write), so decoding does NOT yield the key and its
current value. -/
theorem C7_counterexample :
    ((openDisk []).bind (fun s => s.set [233] [97] 5)).map
        (fun s => (dictGet s.key_dir [233], readRecord s.file 0)) =
      .ok (some 0, .error .unicodeDecodeError) := rfl

/-- C7, amended: start from `open` on a log laid down by ASCII writes `tr`
(the empty log included) and run any sequence of ASCII `set`/`get` calls.
In the resulting state, every index entry `index[k] = off` has `off` equal
to the byte offset of the most recently appended record for `k` in the
file, and decoding the record at `off` yields `k` together with `k`'s
current value (which `get k` also returns). -/
theorem C7_index_invariant (tr : List Entry) (ops : List Op)
    (st0 st : DiskStorage) (hwf : WFTrace tr) (hops : WFOps ops)
    (hopen : openDisk (bytesOfTrace tr) = .ok st0)
    (hrun : runOps st0 ops = .ok st) :
    st.file = bytesOfTrace (tr ++ setsOfOps ops) ∧
    ∀ k off, dictGet st.key_dir k = some off →
      lastOffset k 0 (tr ++ setsOfOps ops) = some off ∧
      ∃ e, lastEntry k (tr ++ setsOfOps ops) = some e ∧ e.2.1 = k ∧
        readRecord st.file off = .ok e ∧ (st.get k).1 = .ok e.2.2 := by
  have hg0 := openDisk_goodState tr hwf st0 hopen
  have hg := runOps_goodState ops tr st0 st hg0 hwf hops hrun
  have hwfAll : WFTrace (tr ++ setsOfOps ops) := fun e he => by
    rcases List.mem_append.mp he with h | h
    · exact hwf e h
    · exact hops e h
  refine ⟨hg.2.1, ?_⟩
  intro k off hdir
  have hlo : lastOffset k 0 (tr ++ setsOfOps ops) = some off := by
    rw [← hg.2.2 k, hdir]
  obtain ⟨e, he1, he2, he3⟩ := lastOffset_readRecord (tr ++ setsOfOps ops)
    hwfAll k [] off (by simpa using hlo)
  simp only [List.nil_append] at he3
  refine ⟨hlo, e, he1, he2, ?_, ?_⟩
  · rw [hg.2.1]
    exact he3
  · have := get_on_good (tr ++ setsOfOps ops) st k hwfAll hg
    simpa [currentValue, he1] using this

theorem C7_index_invariant_witness :
    WFTrace ([] : List Entry) ∧
      WFTrace (setsOfOps [Op.setOp [104] [97] 3]) ∧
      openDisk (bytesOfTrace []) =
        .ok (DiskStorage.mk [] 0 [] true) ∧
      runOps (DiskStorage.mk [] 0 [] true) [Op.setOp [104] [97] 3] =
        .ok (DiskStorage.mk [3, 0, 0, 0, 1, 0, 0, 0, 1, 0, 0, 0, 104, 97] 14
          [([104], 0)] true) ∧
      (lastOffset [104] 0 ([] ++ setsOfOps [Op.setOp [104] [97] 3]) = some 0 ∧
        ∃ e, lastEntry [104] ([] ++ setsOfOps [Op.setOp [104] [97] 3]) =
            some e ∧ e.2.1 = [104] ∧
          readRecord (DiskStorage.mk
            [3, 0, 0, 0, 1, 0, 0, 0, 1, 0, 0, 0, 104, 97] 14
            [([104], 0)] true).file 0 = .ok e ∧
          ((DiskStorage.mk [3, 0, 0, 0, 1, 0, 0, 0, 1, 0, 0, 0, 104, 97] 14
            [([104], 0)] true).get [104]).1 = .ok e.2.2) :=
  ⟨by decide, by decide, rfl, rfl,
    (C7_index_invariant [] [Op.setOp [104] [97] 3] _ _ (by decide) (by decide)
      rfl rfl).2 [104] 0 rfl⟩

/-- C8, counterexample: write the single key `"h"` with value `"é"` (code
point 233; its 2-byte encoding is truncated to 1 byte on write), `close`,
then reopen the same path: the bootstrap scan hits the undecodable key
bytes and open fails with `UnicodeDecodeError`, so `get` cannot return the
same values as before closing — there is no reopened engine at all. -/
theorem C8_counterexample :
    (((openDisk []).bind (fun s => s.set [104] [233] 5)).bind
        (fun s => s.close)).bind (fun s => openDisk s.file) =
      .error .unicodeDecodeError := rfl

/-- C8, amended: for any sequence of ASCII `set`/`get` operations run on an
engine opened on a fresh (empty) file, after `close`, reopening the same
path succeeds and `get` returns, for every key, the same result it
returned before closing. -/
theorem C8_reopen (ops : List Op) (st st2 : DiskStorage) (hops : WFOps ops)
    (hrun : runOps { file := [], pos := 0, key_dir := [], isOpen := true } ops
      = .ok st)
    (hclose : st.close = .ok st2) :
    ∃ stre, openDisk st2.file = .ok stre ∧
      ∀ k, (stre.get k).1 = (st.get k).1 := by
  have hg0 : GoodState []
      { file := [], pos := 0, key_dir := [], isOpen := true } :=
    ⟨rfl, rfl, fun _ => rfl⟩
  have hg := runOps_goodState ops [] _ st hg0
    (fun e he => absurd he (List.not_mem_nil e)) hops hrun
  rw [List.nil_append] at hg
  have hwfs : WFTrace (setsOfOps ops) := hops
  have hfile2 : st2.file = st.file := by
    simp only [DiskStorage.close, Except.ok.injEq] at hclose
    rw [← hclose]
  rw [hfile2, hg.2.1]
  refine ⟨_, openDisk_trace _ hwfs, ?_⟩
  intro k
  have hgre := openDisk_goodState (setsOfOps ops) hwfs _ (openDisk_trace _ hwfs)
  rw [get_on_good _ _ k hwfs hgre, get_on_good _ st k hwfs hg]

theorem C8_reopen_witness :
    WFTrace (setsOfOps [Op.setOp [104] [97] 3]) ∧
      runOps (DiskStorage.mk [] 0 [] true) [Op.setOp [104] [97] 3] =
        .ok (DiskStorage.mk [3, 0, 0, 0, 1, 0, 0, 0, 1, 0, 0, 0, 104, 97] 14
          [([104], 0)] true) ∧
      (DiskStorage.mk [3, 0, 0, 0, 1, 0, 0, 0, 1, 0, 0, 0, 104, 97] 14
          [([104], 0)] true).close =
        .ok (DiskStorage.mk [3, 0, 0, 0, 1, 0, 0, 0, 1, 0, 0, 0, 104, 97] 14
          [([104], 0)] false) ∧
      (∃ stre, openDisk (DiskStorage.mk
          [3, 0, 0, 0, 1, 0, 0, 0, 1, 0, 0, 0, 104, 97] 14
          [([104], 0)] false).file = .ok stre ∧
        ∀ k, (stre.get k).1 =
          ((DiskStorage.mk [3, 0, 0, 0, 1, 0, 0, 0, 1, 0, 0, 0, 104, 97] 14
            [([104], 0)] true).get k).1) :=
  ⟨by decide, rfl, rfl,
    C8_reopen [Op.setOp [104] [97] 3] _ _ (by decide) rfl rfl⟩

/-- C9, counterexample: for `set "é" "a"` on a fresh store the file grows
by 14 bytes — `12 +` the CHARACTER counts `1 + 1` — not by
`15 = 12 + 2 + 1`, the 12-byte header plus the byte lengths of the encoded
key and value. And `set` does not succeed for every key at all: for the
lone-surrogate key `'\ud800'` it raises `UnicodeEncodeError` inside
`encode_kv` and the file does not grow. -/
theorem C9_counterexample :
    ((openDisk []).bind (fun s => s.set [233] [97] 5)).map
        (fun s => s.file.length) = .ok 14 ∧
      (encodeStr [233]).map List.length = some 2 ∧
      (encodeStr [97]).map List.length = some 1 ∧
      (14 : Nat) ≠ 12 + 2 + 1 ∧
      (openDisk []).bind (fun s => s.set [0xD800] [97] 5) =
        .error .unicodeEncodeError :=
  ⟨rfl, rfl, rfl, by decide, rfl⟩

/-- C9, amended: on every open engine and for every encodable key and
value (no lone surrogates, so `str.encode()` succeeds), `set k v t`
appends the encoded record at the current end-of-file offset, points
`index[k]` at that offset, and grows the file by exactly `12 +` the
CHARACTER counts of `k` and `v` (strictly); concretely, after
`set "othello" "shakespeare"` then `set "hamlet" "shakespeare"` on a fresh
store, the second record's offset is `12 + 7 + 11 = 30` and
`get "othello"` still returns `"shakespeare"`. -/
theorem C9_append :
    (∀ (st : DiskStorage) (k v : PyStr) (t : Nat), st.isOpen = true →
      t < 2 ^ 32 → k.length < 2 ^ 32 → v.length < 2 ^ 32 →
      EncodableStr k → EncodableStr v →
      ∃ st', st.set k v t = .ok st' ∧
        st'.file = st.file ++ encRecord (t, k, v) ∧
        st'.file.length = st.file.length + (12 + k.length + v.length) ∧
        st.file.length < st'.file.length ∧
        dictGet st'.key_dir k = some st.file.length) ∧
    ((((openDisk []).bind (fun s =>
        s.set [111, 116, 104, 101, 108, 108, 111]
          [115, 104, 97, 107, 101, 115, 112, 101, 97, 114, 101] 1)).bind
        (fun s => s.set [104, 97, 109, 108, 101, 116]
          [115, 104, 97, 107, 101, 115, 112, 101, 97, 114, 101] 2)).map
        (fun s => (dictGet s.key_dir [104, 97, 109, 108, 101, 116],
          (s.get [111, 116, 104, 101, 108, 108, 111]).1)) =
      .ok (some (12 + 7 + 11),
        .ok [115, 104, 97, 107, 101, 115, 112, 101, 97, 114, 101])) := by
  refine ⟨?_, rfl⟩
  intro st k v t hopen h1 h2 h3 hke hve
  refine ⟨_, set_ok st (t, k, v) hopen h1 h2 h3 hke hve, rfl, ?_, ?_, ?_⟩
  · simp only [List.length_append, encRecord_length, recLen, HEADER_SIZE]
  · simp only [List.length_append, encRecord_length, recLen, HEADER_SIZE]
    omega
  · simp [dictGet_dictSet]

theorem C9_append_witness :
    (DiskStorage.mk [] 0 [] true).isOpen = true ∧ 3 < 2 ^ 32 ∧
      ([104] : PyStr).length < 2 ^ 32 ∧ ([97] : PyStr).length < 2 ^ 32 ∧
      EncodableStr [104] ∧ EncodableStr [97] ∧
      (∃ st', (DiskStorage.mk [] 0 [] true).set [104] [97] 3 = .ok st' ∧
        st'.file = (DiskStorage.mk [] 0 [] true).file ++
          encRecord (3, [104], [97]) ∧
        st'.file.length = (DiskStorage.mk [] 0 [] true).file.length +
          (12 + ([104] : PyStr).length + ([97] : PyStr).length) ∧
        (DiskStorage.mk [] 0 [] true).file.length < st'.file.length ∧
        dictGet st'.key_dir [104] =
          some (DiskStorage.mk [] 0 [] true).file.length) :=
  ⟨rfl, by norm_num, by norm_num, by norm_num, by decide, by decide,
    C9_append.1 (DiskStorage.mk [] 0 [] true) [104] [97] 3 rfl (by norm_num)
      (by norm_num) (by norm_num) (by decide) (by decide)⟩

/-- C10, confirmed: `get` is read-only on the engine's observable state —
whatever key is asked, on any engine state, the state after the call has
the same file contents, the same `key_dir` (same keys, same offsets) and
the same open flag; only the handle's read position may have moved. -/
theorem C10_get_readonly (st : DiskStorage) (k : PyStr) :
    ((st.get k).2).file = st.file ∧ ((st.get k).2).key_dir = st.key_dir ∧
      ((st.get k).2).isOpen = st.isOpen :=
  get_frame st k

end CaskDB
